import Mathlib

/-!
Verification of `sgkit/distance/metrics.py`: the map/reduce decomposition of
the pairwise correlation and Euclidean distance metrics, the missing-value
masking convention (an entry is missing iff it is `< 0`), and the GPU
dispatch routine `call_metric_kernel`.

Modelling decisions (shallow embedding):
* a vector (one row of an input block) is a `List ℚ`; floating-point
  arithmetic is modelled exactly by rational arithmetic, and the final
  square roots by `Real.sqrt`;
* NumPy's `NaN` result of `correlation_reduce_cpu` is modelled by `none`
  in an `Option ℝ` result;
* element dtypes (`float32`, `float64`, `int8`) are tracked symbolically by
  `DType`, with the dtype tables read off the `guvectorize` signatures and
  the `np.zeros(..., dtype=f.dtype)` allocation in `call_metric_kernel`;
* the host-side effects of `call_metric_kernel` (contiguity copy, device
  transfer, output allocation, kernel launch, copy back) are recorded as an
  ordered trace, so that ordering claims about failure points are statable;
* a CUDA kernel is modelled as the function from a thread index `(i1, i2)`
  to the output slot it writes (`none` when the thread exits without
  writing), together with the grid geometry computed by
  `call_metric_kernel`.
-/

/-- An entry contributes to a metric's statistics iff both scalars of the
pair are non-missing, i.e. both `≥ 0` (source: `x[i] >= 0 and y[i] >= 0`,
`metrics.py` lines 58, 117, 224, 277). -/
def validPair (p : ℚ × ℚ) : Prop := 0 ≤ p.1 ∧ 0 ≤ p.2

instance (p : ℚ × ℚ) : Decidable (validPair p) := by
  unfold validPair; infer_instance

/-- Euclidean distance "map" function for partial vector pairs
(`euclidean_map_cpu`, `metrics.py` lines 54-60): starting from
`square_sum = 0.0`, loop over the shared index range and add
`(x[i] - y[i]) ** 2` whenever both entries are non-missing. -/
def euclidean_map_cpu (x y : List ℚ) : ℚ :=
  (x.zip y).foldl
    (fun square_sum p =>
      if validPair p then square_sum + (p.1 - p.2) ^ 2 else square_sum) 0

/-- Corresponding "reduce" function for euclidean distance
(`euclidean_reduce_cpu`, `metrics.py` line 77), restricted to a single
row-pair: `np.sqrt(np.einsum("ijkl -> ij", v))` sums away the chunk axes,
i.e. takes the square root of the sum of the accumulated partial
`square_sum`s. -/
noncomputable def euclidean_reduce_cpu (v : List ℚ) : ℝ :=
  Real.sqrt ((v.sum : ℚ) : ℝ)

/-- The 6 partial statistics produced by the correlation map step:
`sum(x), sum(y), sum(x*x), sum(y*y), sum(x*y), n` (all stored in the
floating-point output row, hence all `ℚ` here, including the count). -/
@[ext]
structure CorrStats where
  sx : ℚ
  sy : ℚ
  sxx : ℚ
  syy : ℚ
  sxy : ℚ
  n : ℚ
deriving DecidableEq, Repr

/-- Componentwise sum of two partial-statistics tuples (the orchestrator
accumulates map outputs by elementwise addition; `v.sum(axis=0)` in
`correlation_reduce_cpu`). -/
def CorrStats.add (a b : CorrStats) : CorrStats :=
  ⟨a.sx + b.sx, a.sy + b.sy, a.sxx + b.sxx, a.syy + b.syy, a.sxy + b.sxy,
    a.n + b.n⟩

/-- The all-zero partial-statistics tuple. -/
def CorrStats.zero : CorrStats := ⟨0, 0, 0, 0, 0, 0⟩

/-- Sum of a stack of partial-statistics tuples (`v.sum(axis=0)`,
`metrics.py` line 168). -/
def sumStats (l : List CorrStats) : CorrStats :=
  l.foldr CorrStats.add CorrStats.zero

/-- Pearson correlation "map" function for partial vector pairs
(`correlation_map_cpu`, `metrics.py` lines 113-141): mark the indices where
both entries are non-missing, compact `x` and `y` to the valid subset
`_x, _y`, and return
`[sum(_x), sum(_y), sum(_x*_x), sum(_y*_y), sum(_x*_y), len(_x)]`. -/
def correlation_map_cpu (x y : List ℚ) : CorrStats :=
  let valid := (x.zip y).filter fun p => decide (validPair p)
  let xs := valid.map Prod.fst
  let ys := valid.map Prod.snd
  { sx := xs.sum
    sy := ys.sum
    sxx := (List.map (fun a => a * a) xs).sum
    syy := (List.map (fun a => a * a) ys).sum
    sxy := (valid.map fun p => p.1 * p.2).sum
    n := (valid.length : ℚ) }

/-- Final Pearson-correlation distance computed from a fully accumulated
6-tuple (`correlation_reduce_cpu`, `metrics.py` lines 169-177):
`num = n*v[4] - v[0]*v[1]`, `denom = sqrt(n*v[2] - v[0]**2) *
sqrt(n*v[3] - v[1]**2)`, and the result is `1 - num/denom` if `denom > 0`,
else `NaN` (modelled as `none`).  The branch test `denom > 0` is expressed
by the equivalent decidable rational test `0 < n*v[2] - v[0]**2 ∧
0 < n*v[3] - v[1]**2` (`NaN > 0` is false in NumPy, and `Real.sqrt` of a
nonpositive argument is `0` here, so the branches agree; the equivalence
with the literal test is `sqrt_mul_sqrt_pos_iff` below). -/
noncomputable def correlationFromStats (v : CorrStats) : Option ℝ :=
  if 0 < v.n * v.sxx - v.sx ^ 2 ∧ 0 < v.n * v.syy - v.sy ^ 2 then
    some (1 - ((v.n * v.sxy - v.sx * v.sy : ℚ) : ℝ) /
      (Real.sqrt ((v.n * v.sxx - v.sx ^ 2 : ℚ) : ℝ) *
        Real.sqrt ((v.n * v.syy - v.sy ^ 2 : ℚ) : ℝ)))
  else
    none

/-- Corresponding "reduce" function for pearson correlation
(`correlation_reduce_cpu`, `metrics.py` lines 153-177), for one row-pair:
sum the stack of per-chunk 6-tuples along axis 0, then apply the
correlation-distance formula to the accumulated tuple. -/
noncomputable def correlation_reduce_cpu (v : List CorrStats) : Option ℝ :=
  correlationFromStats (sumStats v)

/-- GPU device function `_correlation` (`metrics.py` lines 212-237):
single-pass masked accumulation of the six correlation statistics into
scalar accumulators `v0 .. v5`. -/
def _correlation (x y : List ℚ) : CorrStats :=
  (x.zip y).foldl
    (fun v p =>
      if validPair p then
        ⟨v.sx + p.1, v.sy + p.2, v.sxx + p.1 * p.1, v.syy + p.2 * p.2,
          v.sxy + p.1 * p.2, v.n + 1⟩
      else v)
    CorrStats.zero

/-- GPU device function `_euclidean_distance` (`metrics.py` lines
274-279): the same masked squared-difference accumulation as
`euclidean_map_cpu`. -/
def _euclidean_distance (a b : List ℚ) : ℚ :=
  (a.zip b).foldl
    (fun square_sum p =>
      if validPair p then square_sum + (p.1 - p.2) ^ 2 else square_sum) 0

/-- Supported element dtypes of the metric kernels. -/
inductive DType where
  | f32 : DType
  | f64 : DType
  | i8 : DType
deriving DecidableEq, Repr

/-- Output dtype of the CPU map kernels as declared by their `guvectorize`
signatures (`metrics.py` lines 24-28 and 82-86): `float32 → float32`,
`float64 → float64`, `int8 → float64`. -/
def cpu_map_out_dtype : DType → DType
  | .f32 => .f32
  | .f64 => .f64
  | .i8 => .f64

/-- Dtype of the output tensor allocated by the GPU dispatch routine
(`metrics.py` line 193): `np.zeros((f.shape[0], g.shape[0],
N_MAP_PARAM[metric]), dtype=f.dtype)` — the input dtype, with no
promotion. -/
def gpu_map_out_dtype (d : DType) : DType := d

/-- The metric registry (`N_MAP_PARAM`, `metrics.py` lines 17-20): number
of parameters of the map step per metric name; `none` models the `KeyError`
raised by a dictionary lookup of an absent name. -/
def N_MAP_PARAM (metric : String) : Option ℕ :=
  if metric = "correlation" then some 6
  else if metric = "euclidean" then some 1
  else none

/-- Host-side effects of `call_metric_kernel`, in the order the source
performs them. -/
inductive KernelEffect where
  | copyContiguous : KernelEffect
  | transferInput : KernelEffect
  | allocOutput : KernelEffect
  | launchKernel : KernelEffect
  | copyBackOutput : KernelEffect
deriving DecidableEq, Repr

/-- GPU dispatch routine (`call_metric_kernel`, `metrics.py` lines
180-208), modelled as the ordered trace of host-side effects together with
the returned host copy of the output (`none` models the raised exception).
Source order: `np.ascontiguousarray` on both inputs (lines 186-187), then
`cuda.to_device` on both inputs (lines 190-191), then the output
allocation `np.zeros(..., N_MAP_PARAM[metric], dtype=f.dtype)` (line 193)
— which raises `KeyError` when `metric` is not in the registry — then the
kernel launch (line 205) and the copy back to the host (line 207). -/
def call_metric_kernel {α : Type} (f g : List (List ℚ)) (metric : String)
    (metric_kernel : List (List ℚ) → List (List ℚ) → α) :
    List KernelEffect × Option α :=
  match N_MAP_PARAM metric with
  | some _ =>
      ([.copyContiguous, .transferInput, .allocOutput, .launchKernel,
        .copyBackOutput], some (metric_kernel f g))
  | none => ([.copyContiguous, .transferInput], none)

/-- Grid geometry chosen by `call_metric_kernel` (`metrics.py` lines
199-203): thread blocks of shape 32×32 and
`math.ceil(out.shape[i] / 32)` blocks per grid axis, for an output of
shape `(p, q, k)`. -/
def blocks_per_grid (p q : ℕ) : ℕ × ℕ := ((p + 31) / 32, (q + 31) / 32)

/-- The set of thread indices `(i1, i2)` spawned by the launch: each grid
axis holds `32 * blocks` threads (grid dimensions are rounded up to
block-shape multiples, so there may be excess threads). -/
def inGrid (p q : ℕ) (t : ℕ × ℕ) : Prop :=
  t.1 < 32 * (blocks_per_grid p q).1 ∧ t.2 < 32 * (blocks_per_grid p q).2

instance (p q : ℕ) (t : ℕ × ℕ) : Decidable (inGrid p q t) := by
  unfold inGrid; infer_instance

/-- GPU kernel `correlation_map_kernel` (`metrics.py` lines 241-247) as
seen by one device thread `t = cuda.grid(2)`: if `t` is outside the output
boundary `(x.length, y.length)` the thread returns without writing
(`none`); otherwise it writes the statistics of row pair
`(x[t.1], y[t.2])` into its own slot `out[t.1][t.2]`. -/
def correlation_map_kernel (x y : List (List ℚ)) (t : ℕ × ℕ) :
    Option ((ℕ × ℕ) × CorrStats) :=
  if x.length ≤ t.1 ∨ y.length ≤ t.2 then none
  else some (t, _correlation (x.getD t.1 []) (y.getD t.2 []))

/-- GPU kernel `euclidean_map_kernel` (`metrics.py` lines 283-288): same
boundary guard, writing the squared-sum statistic of row pair
`(x[t.1], y[t.2])` into slot `out[t.1][t.2]`. -/
def euclidean_map_kernel (x y : List (List ℚ)) (t : ℕ × ℕ) :
    Option ((ℕ × ℕ) × ℚ) :=
  if x.length ≤ t.1 ∨ y.length ≤ t.2 then none
  else some (t, _euclidean_distance (x.getD t.1 []) (y.getD t.2 []))

/-- Contribution of a single index pair to the euclidean squared sum. -/
def eContrib (p : ℚ × ℚ) : ℚ := if validPair p then (p.1 - p.2) ^ 2 else 0

lemma euclid_foldl_step (l : List (ℚ × ℚ)) (a : ℚ) :
    l.foldl
      (fun square_sum p =>
        if validPair p then square_sum + (p.1 - p.2) ^ 2 else square_sum) a
      = a + (l.map eContrib).sum := by
  induction l generalizing a with
  | nil => simp
  | cons p l ih =>
    simp only [List.foldl_cons, List.map_cons, List.sum_cons, ih, eContrib]
    by_cases h : validPair p
    · simp only [if_pos h]; ring
    · simp only [if_neg h]; ring

lemma euclidean_map_eq_sum (x y : List ℚ) :
    euclidean_map_cpu x y = ((x.zip y).map eContrib).sum := by
  unfold euclidean_map_cpu
  rw [euclid_foldl_step, zero_add]

lemma euclidean_gpu_eq_cpu (a b : List ℚ) :
    _euclidean_distance a b = euclidean_map_cpu a b := rfl

lemma euclidean_map_append (x1 x2 y1 y2 : List ℚ)
    (h : x1.length = y1.length) :
    euclidean_map_cpu (x1 ++ x2) (y1 ++ y2)
      = euclidean_map_cpu x1 y1 + euclidean_map_cpu x2 y2 := by
  simp [euclidean_map_eq_sum, List.zip_append h]

lemma CorrStats.add_zero_right (a : CorrStats) :
    a.add CorrStats.zero = a := by
  ext <;> simp [CorrStats.add, CorrStats.zero]

lemma CorrStats.add_zero_left (a : CorrStats) :
    CorrStats.zero.add a = a := by
  ext <;> simp [CorrStats.add, CorrStats.zero]

lemma CorrStats.add_assoc' (a b c : CorrStats) :
    (a.add b).add c = a.add (b.add c) := by
  ext <;> simp [CorrStats.add] <;> ring

lemma sumStats_nil : sumStats [] = CorrStats.zero := rfl

lemma sumStats_cons (a : CorrStats) (l : List CorrStats) :
    sumStats (a :: l) = a.add (sumStats l) := rfl

lemma sumStats_singleton (a : CorrStats) : sumStats [a] = a := by
  rw [sumStats_cons, sumStats_nil, CorrStats.add_zero_right]

/-- The correlation statistics of a list of index pairs (the body of
`correlation_map_cpu`, abstracted over the zipped pair list). -/
def corrOf (l : List (ℚ × ℚ)) : CorrStats :=
  let valid := l.filter fun p => decide (validPair p)
  let xs := valid.map Prod.fst
  let ys := valid.map Prod.snd
  { sx := xs.sum
    sy := ys.sum
    sxx := (List.map (fun a => a * a) xs).sum
    syy := (List.map (fun a => a * a) ys).sum
    sxy := (valid.map fun p => p.1 * p.2).sum
    n := (valid.length : ℚ) }

lemma correlation_map_eq_corrOf (x y : List ℚ) :
    correlation_map_cpu x y = corrOf (x.zip y) := rfl

/-- The statistics contributed by one valid index pair. -/
def corrSingle (p : ℚ × ℚ) : CorrStats :=
  ⟨p.1, p.2, p.1 * p.1, p.2 * p.2, p.1 * p.2, 1⟩

lemma corrOf_nil : corrOf [] = CorrStats.zero := by
  ext <;> simp [corrOf, CorrStats.zero]

lemma corrOf_cons (p : ℚ × ℚ) (l : List (ℚ × ℚ)) :
    corrOf (p :: l)
      = if validPair p then (corrSingle p).add (corrOf l) else corrOf l := by
  by_cases h : validPair p
  · simp only [if_pos h]
    ext <;> simp [corrOf, corrSingle, CorrStats.add, List.filter_cons, h] <;>
      ring
  · simp only [if_neg h]
    ext <;> simp [corrOf, List.filter_cons, h]

lemma corrOf_append (l1 l2 : List (ℚ × ℚ)) :
    corrOf (l1 ++ l2) = (corrOf l1).add (corrOf l2) := by
  induction l1 with
  | nil => simp [corrOf_nil, CorrStats.add_zero_left]
  | cons p l ih =>
    simp only [List.cons_append, corrOf_cons, ih]
    by_cases h : validPair p
    · simp [h, CorrStats.add_assoc']
    · simp [h]

lemma correlation_map_append (x1 x2 y1 y2 : List ℚ)
    (h : x1.length = y1.length) :
    correlation_map_cpu (x1 ++ x2) (y1 ++ y2)
      = (correlation_map_cpu x1 y1).add (correlation_map_cpu x2 y2) := by
  simp [correlation_map_eq_corrOf, List.zip_append h, corrOf_append]

lemma corr_foldl_step (l : List (ℚ × ℚ)) (s : CorrStats) :
    l.foldl
      (fun v p =>
        if validPair p then
          ⟨v.sx + p.1, v.sy + p.2, v.sxx + p.1 * p.1, v.syy + p.2 * p.2,
            v.sxy + p.1 * p.2, v.n + 1⟩
        else v) s
      = s.add (corrOf l) := by
  induction l generalizing s with
  | nil => simp [corrOf_nil, CorrStats.add_zero_right]
  | cons p l ih =>
    simp only [List.foldl_cons, ih, corrOf_cons]
    by_cases h : validPair p
    · simp only [if_pos h]
      ext <;> simp [CorrStats.add, corrSingle] <;> ring
    · simp only [if_neg h]

lemma correlation_gpu_eq_cpu (x y : List ℚ) :
    _correlation x y = correlation_map_cpu x y := by
  unfold _correlation
  rw [corr_foldl_step, CorrStats.add_zero_left, correlation_map_eq_corrOf]

lemma validPair_swap (p : ℚ × ℚ) : validPair p.swap ↔ validPair p := by
  unfold validPair
  simp only [Prod.fst_swap, Prod.snd_swap]
  exact and_comm

lemma eContrib_swap (p : ℚ × ℚ) : eContrib p.swap = eContrib p := by
  unfold eContrib
  rw [if_congr (validPair_swap p) rfl rfl]
  simp only [Prod.fst_swap, Prod.snd_swap]
  by_cases h : validPair p
  · simp only [if_pos h]; ring
  · simp only [if_neg h]

lemma euclidean_map_symm (x y : List ℚ) :
    euclidean_map_cpu y x = euclidean_map_cpu x y := by
  rw [euclidean_map_eq_sum, euclidean_map_eq_sum, ← List.zip_swap,
    List.map_map]
  congr 1
  exact List.map_congr_left fun p _ => eContrib_swap p

/-- The statistics tuple with the roles of `x` and `y` exchanged. -/
def swapStats (v : CorrStats) : CorrStats :=
  ⟨v.sy, v.sx, v.syy, v.sxx, v.sxy, v.n⟩

lemma corrOf_map_swap (l : List (ℚ × ℚ)) :
    corrOf (l.map Prod.swap) = swapStats (corrOf l) := by
  induction l with
  | nil => ext <;> simp [corrOf_nil, swapStats, CorrStats.zero]
  | cons p l ih =>
    simp only [List.map_cons, corrOf_cons, ih]
    rw [if_congr (validPair_swap p) rfl rfl]
    by_cases h : validPair p
    · simp only [if_pos h]
      ext <;> simp [CorrStats.add, swapStats, corrSingle] <;> ring
    · simp only [if_neg h]

lemma correlation_map_symm (x y : List ℚ) :
    correlation_map_cpu y x = swapStats (correlation_map_cpu x y) := by
  rw [correlation_map_eq_corrOf, correlation_map_eq_corrOf, ← List.zip_swap,
    corrOf_map_swap]

lemma correlationFromStats_swap (v : CorrStats) :
    correlationFromStats (swapStats v) = correlationFromStats v := by
  unfold correlationFromStats swapStats
  simp only []
  by_cases h : 0 < v.n * v.sxx - v.sx ^ 2 ∧ 0 < v.n * v.syy - v.sy ^ 2
  · rw [if_pos ⟨h.2, h.1⟩, if_pos h, mul_comm v.sy v.sx,
      mul_comm (Real.sqrt ((v.n * v.syy - v.sy ^ 2 : ℚ) : ℝ))
        (Real.sqrt ((v.n * v.sxx - v.sx ^ 2 : ℚ) : ℝ))]
  · rw [if_neg (fun hc => h ⟨hc.2, hc.1⟩), if_neg h]

lemma sqrt_mul_sqrt_pos_iff (a b : ℚ) :
    0 < Real.sqrt (a : ℝ) * Real.sqrt (b : ℝ) ↔ 0 < a ∧ 0 < b := by
  constructor
  · intro h
    by_contra hab
    rcases not_and_or.mp hab with ha | hb
    · rw [Real.sqrt_eq_zero'.mpr (by exact_mod_cast not_lt.mp ha), zero_mul]
        at h
      exact lt_irrefl 0 h
    · rw [Real.sqrt_eq_zero'.mpr
          (show ((b : ℚ) : ℝ) ≤ 0 by exact_mod_cast not_lt.mp hb), mul_zero]
        at h
      exact lt_irrefl 0 h
  · rintro ⟨ha, hb⟩
    exact mul_pos (Real.sqrt_pos.mpr (by exact_mod_cast ha))
      (Real.sqrt_pos.mpr (by exact_mod_cast hb))

lemma zipSum_eq_rangeSum (x y : List ℚ) (h : x.length = y.length) :
    ((x.zip y).map eContrib).sum
      = ∑ i ∈ Finset.range x.length,
          (if 0 ≤ x.getD i 0 ∧ 0 ≤ y.getD i 0 then
            (x.getD i 0 - y.getD i 0) ^ 2 else 0) := by
  induction x generalizing y with
  | nil => simp
  | cons a x ih =>
    cases y with
    | nil => simp at h
    | cons b y =>
      simp only [List.zip_cons_cons, List.map_cons, List.sum_cons,
        List.length_cons]
      rw [Finset.sum_range_succ']
      simp only [List.getD_cons_succ, List.getD_cons_zero]
      rw [← ih y (by simpa using h)]
      have hc : eContrib (a, b)
          = if 0 ≤ a ∧ 0 ≤ b then (a - b) ^ 2 else 0 := by
        simp [eContrib, validPair]
      rw [hc, add_comm]

/-- C3: for every pair of vectors `x, y` of length `m`, `euclidean_map_cpu`
returns the single partial statistic `Σ` over valid indices `i` of
`(x[i]-y[i])²`, where index `i` is valid iff both `x[i] ≥ 0` and
`y[i] ≥ 0` (entries `< 0` are missing and excluded pairwise), and
`euclidean_reduce_cpu` returns the square root of the accumulated
`square_sum`. -/
theorem euclidean_map_reduce_spec (x y : List ℚ) (h : x.length = y.length) :
    euclidean_map_cpu x y
      = (∑ i ∈ Finset.range x.length,
          if 0 ≤ x.getD i 0 ∧ 0 ≤ y.getD i 0 then
            (x.getD i 0 - y.getD i 0) ^ 2 else 0)
    ∧ ∀ v : List ℚ, euclidean_reduce_cpu v = Real.sqrt ((v.sum : ℚ) : ℝ) :=
  ⟨(euclidean_map_eq_sum x y).trans (zipSum_eq_rangeSum x y h),
    fun _ => rfl⟩

theorem euclidean_map_reduce_spec_witness :
    ([(5 : ℚ), -1, 3].length = [(4 : ℚ), 2, 1].length)
    ∧ (euclidean_map_cpu [5, -1, 3] [4, 2, 1]
        = (∑ i ∈ Finset.range [(5 : ℚ), -1, 3].length,
            if 0 ≤ [(5 : ℚ), -1, 3].getD i 0 ∧ 0 ≤ [(4 : ℚ), 2, 1].getD i 0
            then ([(5 : ℚ), -1, 3].getD i 0 - [(4 : ℚ), 2, 1].getD i 0) ^ 2
            else 0)
        ∧ ∀ v : List ℚ,
            euclidean_reduce_cpu v = Real.sqrt ((v.sum : ℚ) : ℝ)) :=
  ⟨rfl, euclidean_map_reduce_spec [5, -1, 3] [4, 2, 1] rfl⟩

/-- C8: for every pair of vectors `x, y` with zero valid index pairs (no
index at which both entries are `≥ 0`), `euclidean_map_cpu` returns
`square_sum = 0` and `euclidean_reduce_cpu` therefore returns distance
`0`; both are total functions (no error, no division, no out-of-bounds
read). -/
theorem euclidean_empty_valid_spec (x y : List ℚ)
    (h : ∀ p ∈ x.zip y, ¬ validPair p) :
    euclidean_map_cpu x y = 0
    ∧ euclidean_reduce_cpu [euclidean_map_cpu x y] = 0 := by
  have hm : euclidean_map_cpu x y = 0 := by
    rw [euclidean_map_eq_sum]
    apply List.sum_eq_zero
    intro q hq
    rcases List.mem_map.mp hq with ⟨p, hp, rfl⟩
    simp [eContrib, h p hp]
  refine ⟨hm, ?_⟩
  rw [hm]
  simp [euclidean_reduce_cpu]

theorem euclidean_empty_valid_spec_witness :
    (∀ p ∈ [(-1 : ℚ)].zip [(5 : ℚ)], ¬ validPair p)
    ∧ (euclidean_map_cpu [-1] [5] = 0
        ∧ euclidean_reduce_cpu [euclidean_map_cpu [-1] [5]] = 0) := by
  have h : ∀ p ∈ [(-1 : ℚ)].zip [(5 : ℚ)], ¬ validPair p := by
    intro p hp
    rcases List.mem_singleton.mp hp with rfl
    norm_num [validPair]
  exact ⟨h, euclidean_empty_valid_spec [-1] [5] h⟩

/-- C10: the euclidean map statistic is a sum of squares, hence `≥ 0`;
sums of map outputs stay `≥ 0`; therefore the square root in
`euclidean_reduce_cpu` never receives a negative argument (its square
recovers the radicand) and the euclidean distance is `≥ 0` and a
well-defined real number (never NaN). -/
theorem euclidean_nonneg_spec :
    (∀ x y : List ℚ, 0 ≤ euclidean_map_cpu x y)
    ∧ ∀ parts : List ℚ,
        (∀ p ∈ parts, ∃ x y : List ℚ, p = euclidean_map_cpu x y) →
        0 ≤ parts.sum ∧ 0 ≤ euclidean_reduce_cpu parts
          ∧ euclidean_reduce_cpu parts ^ 2 = ((parts.sum : ℚ) : ℝ) := by
  have hmap : ∀ x y : List ℚ, 0 ≤ euclidean_map_cpu x y := by
    intro x y
    rw [euclidean_map_eq_sum]
    apply List.sum_nonneg
    intro q hq
    rcases List.mem_map.mp hq with ⟨p, _, rfl⟩
    unfold eContrib
    by_cases h : validPair p
    · simp only [if_pos h]; positivity
    · simp only [if_neg h]; exact le_refl 0
  refine ⟨hmap, fun parts hparts => ?_⟩
  have hsum : 0 ≤ parts.sum := by
    apply List.sum_nonneg
    intro q hq
    rcases hparts q hq with ⟨x, y, rfl⟩
    exact hmap x y
  refine ⟨hsum, Real.sqrt_nonneg _, ?_⟩
  exact Real.sq_sqrt (by exact_mod_cast hsum)

theorem euclidean_nonneg_spec_witness :
    (∀ p ∈ [euclidean_map_cpu [1] [2]], ∃ x y : List ℚ,
        p = euclidean_map_cpu x y)
    ∧ (0 ≤ [euclidean_map_cpu [1] [2]].sum
        ∧ 0 ≤ euclidean_reduce_cpu [euclidean_map_cpu [1] [2]]
        ∧ euclidean_reduce_cpu [euclidean_map_cpu [1] [2]] ^ 2
            = (([euclidean_map_cpu [1] [2]].sum : ℚ) : ℝ)) := by
  have h : ∀ p ∈ [euclidean_map_cpu [1] [2]], ∃ x y : List ℚ,
      p = euclidean_map_cpu x y :=
    fun p hp => ⟨[1], [2], List.mem_singleton.mp hp⟩
  exact ⟨h, euclidean_nonneg_spec.2 [euclidean_map_cpu [1] [2]] h⟩

/-- C7: for every pair of vectors and both metrics computed via the same
backend, the distance is symmetric: map-then-reduce on `(x, y)` equals
map-then-reduce on `(y, x)` exactly, on the CPU kernels and on the GPU
device kernels (floating arithmetic is modelled exactly, so exact equality
of the modelled values corresponds to bitwise equality of the computed
ones). -/
theorem distance_symm_spec (x y : List ℚ) :
    euclidean_map_cpu x y = euclidean_map_cpu y x
    ∧ euclidean_reduce_cpu [euclidean_map_cpu x y]
        = euclidean_reduce_cpu [euclidean_map_cpu y x]
    ∧ correlation_reduce_cpu [correlation_map_cpu x y]
        = correlation_reduce_cpu [correlation_map_cpu y x]
    ∧ _euclidean_distance x y = _euclidean_distance y x
    ∧ correlation_reduce_cpu [_correlation x y]
        = correlation_reduce_cpu [_correlation y x] := by
  have he := euclidean_map_symm x y
  have hc : correlation_reduce_cpu [correlation_map_cpu x y]
      = correlation_reduce_cpu [correlation_map_cpu y x] := by
    unfold correlation_reduce_cpu
    rw [sumStats_singleton, sumStats_singleton, correlation_map_symm x y,
      correlationFromStats_swap]
  refine ⟨he.symm, by rw [he], hc, ?_, ?_⟩
  · rw [euclidean_gpu_eq_cpu, euclidean_gpu_eq_cpu, he]
  · rw [correlation_gpu_eq_cpu, correlation_gpu_eq_cpu]
    exact hc

/-- C2: for every accumulated correlation 6-tuple
`(Σx, Σy, Σx², Σy², Σxy, n)`, `correlation_reduce_cpu` returns
`1 − (n·Σxy − Σx·Σy) / (sqrt(n·Σx² − (Σx)²) · sqrt(n·Σy² − (Σy)²))` when
that denominator is strictly positive, and `NaN` (modelled `none`, never
an error — the function is total) otherwise, including zero variance in
`x` or `y` and `n < 2`. -/
theorem correlation_reduce_spec (v : CorrStats) :
    (0 < Real.sqrt ((v.n * v.sxx - v.sx ^ 2 : ℚ) : ℝ)
        * Real.sqrt ((v.n * v.syy - v.sy ^ 2 : ℚ) : ℝ) →
      correlation_reduce_cpu [v]
        = some (1 - ((v.n * v.sxy - v.sx * v.sy : ℚ) : ℝ)
            / (Real.sqrt ((v.n * v.sxx - v.sx ^ 2 : ℚ) : ℝ)
                * Real.sqrt ((v.n * v.syy - v.sy ^ 2 : ℚ) : ℝ))))
    ∧ (¬ (0 < Real.sqrt ((v.n * v.sxx - v.sx ^ 2 : ℚ) : ℝ)
          * Real.sqrt ((v.n * v.syy - v.sy ^ 2 : ℚ) : ℝ)) →
      correlation_reduce_cpu [v] = none) := by
  have hs : correlation_reduce_cpu [v] = correlationFromStats v := by
    unfold correlation_reduce_cpu
    rw [sumStats_singleton]
  constructor
  · intro h
    rw [hs]
    unfold correlationFromStats
    rw [if_pos ((sqrt_mul_sqrt_pos_iff _ _).mp h)]
  · intro h
    rw [hs]
    unfold correlationFromStats
    rw [if_neg (fun hc => h ((sqrt_mul_sqrt_pos_iff _ _).mpr hc))]

theorem correlation_reduce_spec_witness :
    (¬ (0 < Real.sqrt ((CorrStats.zero.n * CorrStats.zero.sxx
            - CorrStats.zero.sx ^ 2 : ℚ) : ℝ)
        * Real.sqrt ((CorrStats.zero.n * CorrStats.zero.syy
            - CorrStats.zero.sy ^ 2 : ℚ) : ℝ)))
    ∧ correlation_reduce_cpu [CorrStats.zero] = none := by
  have h : ¬ (0 < Real.sqrt ((CorrStats.zero.n * CorrStats.zero.sxx
          - CorrStats.zero.sx ^ 2 : ℚ) : ℝ)
      * Real.sqrt ((CorrStats.zero.n * CorrStats.zero.syy
          - CorrStats.zero.sy ^ 2 : ℚ) : ℝ)) := by
    norm_num [CorrStats.zero, Real.sqrt_zero]
  exact ⟨h, (correlation_reduce_spec CorrStats.zero).2 h⟩

lemma euclid_chunks_sum (chunks : List (List ℚ × List ℚ))
    (h : ∀ c ∈ chunks, c.1.length = c.2.length) :
    (chunks.map fun c => euclidean_map_cpu c.1 c.2).sum
      = euclidean_map_cpu (chunks.map Prod.fst).flatten
          (chunks.map Prod.snd).flatten := by
  induction chunks with
  | nil => rfl
  | cons c cs ih =>
    have hc := h c (List.mem_cons_self c cs)
    have ihs := ih fun d hd => h d (List.mem_cons_of_mem c hd)
    simp only [List.map_cons, List.sum_cons, List.flatten_cons]
    rw [euclidean_map_append c.1 (cs.map Prod.fst).flatten c.2
      (cs.map Prod.snd).flatten hc, ihs]

lemma corr_chunks_sum (chunks : List (List ℚ × List ℚ))
    (h : ∀ c ∈ chunks, c.1.length = c.2.length) :
    sumStats (chunks.map fun c => correlation_map_cpu c.1 c.2)
      = correlation_map_cpu (chunks.map Prod.fst).flatten
          (chunks.map Prod.snd).flatten := by
  induction chunks with
  | nil =>
    rw [List.map_nil, sumStats_nil]
    ext <;> rfl
  | cons c cs ih =>
    have hc := h c (List.mem_cons_self c cs)
    have ihs := ih fun d hd => h d (List.mem_cons_of_mem c hd)
    simp only [List.map_cons, List.flatten_cons, sumStats_cons]
    rw [correlation_map_append c.1 (cs.map Prod.fst).flatten c.2
      (cs.map Prod.snd).flatten hc, ihs]

/-- C1: for each metric, for vectors split into column-chunks (each chunk
a pair of equal-length partial vectors), the elementwise sum of the map
outputs over the chunks equals the map output on the concatenated
(unsplit) vectors, exactly — so reducing the chunked stack equals
reducing the one-pass map output. -/
theorem chunked_map_additivity_spec (chunks : List (List ℚ × List ℚ))
    (h : ∀ c ∈ chunks, c.1.length = c.2.length) :
    ((chunks.map fun c => euclidean_map_cpu c.1 c.2).sum
        = euclidean_map_cpu (chunks.map Prod.fst).flatten
            (chunks.map Prod.snd).flatten)
    ∧ (sumStats (chunks.map fun c => correlation_map_cpu c.1 c.2)
        = correlation_map_cpu (chunks.map Prod.fst).flatten
            (chunks.map Prod.snd).flatten)
    ∧ (euclidean_reduce_cpu (chunks.map fun c => euclidean_map_cpu c.1 c.2)
        = euclidean_reduce_cpu
            [euclidean_map_cpu (chunks.map Prod.fst).flatten
              (chunks.map Prod.snd).flatten])
    ∧ (correlation_reduce_cpu
          (chunks.map fun c => correlation_map_cpu c.1 c.2)
        = correlation_reduce_cpu
            [correlation_map_cpu (chunks.map Prod.fst).flatten
              (chunks.map Prod.snd).flatten]) := by
  have he := euclid_chunks_sum chunks h
  have hco := corr_chunks_sum chunks h
  refine ⟨he, hco, ?_, ?_⟩
  · unfold euclidean_reduce_cpu
    rw [he]
    norm_num
  · unfold correlation_reduce_cpu
    rw [sumStats_singleton, hco]

theorem chunked_map_additivity_spec_witness :
    (∀ c ∈ [([(1 : ℚ), 2], [(3 : ℚ), -1]), ([(5 : ℚ)], [(0 : ℚ)])],
        c.1.length = c.2.length)
    ∧ ((([([(1 : ℚ), 2], [(3 : ℚ), -1]), ([(5 : ℚ)], [(0 : ℚ)])].map
            fun c => euclidean_map_cpu c.1 c.2).sum
        = euclidean_map_cpu
            ([([(1 : ℚ), 2], [(3 : ℚ), -1]), ([(5 : ℚ)], [(0 : ℚ)])].map
              Prod.fst).flatten
            ([([(1 : ℚ), 2], [(3 : ℚ), -1]), ([(5 : ℚ)], [(0 : ℚ)])].map
              Prod.snd).flatten)
      ∧ (sumStats
            ([([(1 : ℚ), 2], [(3 : ℚ), -1]), ([(5 : ℚ)], [(0 : ℚ)])].map
              fun c => correlation_map_cpu c.1 c.2)
          = correlation_map_cpu
              ([([(1 : ℚ), 2], [(3 : ℚ), -1]), ([(5 : ℚ)], [(0 : ℚ)])].map
                Prod.fst).flatten
              ([([(1 : ℚ), 2], [(3 : ℚ), -1]), ([(5 : ℚ)], [(0 : ℚ)])].map
                Prod.snd).flatten)
      ∧ (euclidean_reduce_cpu
            ([([(1 : ℚ), 2], [(3 : ℚ), -1]), ([(5 : ℚ)], [(0 : ℚ)])].map
              fun c => euclidean_map_cpu c.1 c.2)
          = euclidean_reduce_cpu
              [euclidean_map_cpu
                ([([(1 : ℚ), 2], [(3 : ℚ), -1]), ([(5 : ℚ)], [(0 : ℚ)])].map
                  Prod.fst).flatten
                ([([(1 : ℚ), 2], [(3 : ℚ), -1]), ([(5 : ℚ)], [(0 : ℚ)])].map
                  Prod.snd).flatten])
      ∧ (correlation_reduce_cpu
            ([([(1 : ℚ), 2], [(3 : ℚ), -1]), ([(5 : ℚ)], [(0 : ℚ)])].map
              fun c => correlation_map_cpu c.1 c.2)
          = correlation_reduce_cpu
              [correlation_map_cpu
                ([([(1 : ℚ), 2], [(3 : ℚ), -1]), ([(5 : ℚ)], [(0 : ℚ)])].map
                  Prod.fst).flatten
                ([([(1 : ℚ), 2], [(3 : ℚ), -1]), ([(5 : ℚ)], [(0 : ℚ)])].map
                  Prod.snd).flatten])) := by
  have h : ∀ c ∈ [([(1 : ℚ), 2], [(3 : ℚ), -1]), ([(5 : ℚ)], [(0 : ℚ)])],
      c.1.length = c.2.length := by
    intro c hc
    rcases List.mem_cons.mp hc with rfl | hc2
    · rfl
    rcases List.mem_singleton.mp hc2 with rfl
    rfl
  exact ⟨h, chunked_map_additivity_spec _ h⟩

/-- C4 counterexample: for 8-bit signed integer input the GPU map path
allocates its output tensor with the input dtype (`dtype=f.dtype`,
`metrics.py` line 193), while the CPU map kernel's `guvectorize` signature
promotes `int8` input to a `float64` output — the dtype contract differs,
so the claim fails at dtype `int8`. -/
theorem gpu_dtype_contract_counterexample :
    gpu_map_out_dtype DType.i8 ≠ cpu_map_out_dtype DType.i8 := by decide

/-- C4 (amended): the GPU device kernels compute exactly the same partial
statistics as the CPU map kernels — per value (`_euclidean_distance` and
`_correlation` agree with `euclidean_map_cpu` and `correlation_map_cpu`
on every input) and per output slot — and the output dtype contract
agrees for the two floating dtypes; for `int8` input the GPU output dtype
is the input dtype, not the CPU kernel's `float64`. -/
theorem gpu_cpu_map_parity (d : DType) (hd : d ≠ DType.i8) :
    (∀ x y : List ℚ, _euclidean_distance x y = euclidean_map_cpu x y)
    ∧ (∀ x y : List ℚ, _correlation x y = correlation_map_cpu x y)
    ∧ (∀ (x y : List (List ℚ)) (i j : ℕ), i < x.length → j < y.length →
        euclidean_map_kernel x y (i, j)
          = some ((i, j), euclidean_map_cpu (x.getD i []) (y.getD j []))
        ∧ correlation_map_kernel x y (i, j)
          = some ((i, j), correlation_map_cpu (x.getD i []) (y.getD j [])))
    ∧ gpu_map_out_dtype d = cpu_map_out_dtype d := by
  refine ⟨euclidean_gpu_eq_cpu, correlation_gpu_eq_cpu, ?_, ?_⟩
  · intro x y i j hi hj
    have hg : ¬ (x.length ≤ i ∨ y.length ≤ j) := by
      push_neg
      exact ⟨hi, hj⟩
    constructor
    · unfold euclidean_map_kernel
      rw [if_neg hg, euclidean_gpu_eq_cpu]
    · unfold correlation_map_kernel
      rw [if_neg hg, correlation_gpu_eq_cpu]
  · cases d with
    | f32 => rfl
    | f64 => rfl
    | i8 => exact absurd rfl hd

theorem gpu_cpu_map_parity_witness :
    (DType.f32 ≠ DType.i8)
    ∧ ((∀ x y : List ℚ, _euclidean_distance x y = euclidean_map_cpu x y)
      ∧ (∀ x y : List ℚ, _correlation x y = correlation_map_cpu x y)
      ∧ (∀ (x y : List (List ℚ)) (i j : ℕ), i < x.length → j < y.length →
          euclidean_map_kernel x y (i, j)
            = some ((i, j), euclidean_map_cpu (x.getD i []) (y.getD j []))
          ∧ correlation_map_kernel x y (i, j)
            = some ((i, j),
                correlation_map_cpu (x.getD i []) (y.getD j [])))
      ∧ gpu_map_out_dtype DType.f32 = cpu_map_out_dtype DType.f32) :=
  ⟨by decide, gpu_cpu_map_parity DType.f32 (by decide)⟩

/-- C5: on the CPU path the `guvectorize` signatures promote `int8` input
to `float64` statistics, but on the GPU path `call_metric_kernel`
allocates the partial-statistics tensor with `dtype=f.dtype`
(`metrics.py` line 193) — for 8-bit signed integer input the statistics
are stored in 8-bit integer, contradicting the claimed promotion to at
least 64-bit float on both paths. -/
theorem gpu_int8_statistics_dtype_bug :
    cpu_map_out_dtype DType.i8 = DType.f64
    ∧ gpu_map_out_dtype DType.i8 = DType.i8 := by decide

/-- C6 counterexample: calling `call_metric_kernel` with a metric name
absent from `N_MAP_PARAM` does fail (the registry lookup at the output
allocation raises), but only after both input blocks have been
transferred to the device (`cuda.to_device`, lines 190-191, precedes the
`N_MAP_PARAM[metric]` lookup, line 193) — refuting "before any input
block is transferred". -/
theorem unknown_metric_transfer_counterexample :
    (call_metric_kernel [[(1 : ℚ)]] [[(2 : ℚ)]] "cityblock"
        (fun f g => (f.length, g.length))).2 = none
    ∧ KernelEffect.transferInput
        ∈ (call_metric_kernel [[(1 : ℚ)]] [[(2 : ℚ)]] "cityblock"
            (fun f g => (f.length, g.length))).1 := by
  constructor
  · rfl
  · simp [call_metric_kernel, N_MAP_PARAM]

/-- C6 (amended): for every metric name absent from the registry
`N_MAP_PARAM`, `call_metric_kernel` fails with the registry-lookup error
and performs no output allocation, no kernel launch and no copy-back (no
computation) — but the contiguity copy and the device transfer of the
input blocks have already happened when the error is raised. -/
theorem unknown_metric_dispatch {α : Type} (metric : String)
    (h : N_MAP_PARAM metric = none) (f g : List (List ℚ))
    (kernel : List (List ℚ) → List (List ℚ) → α) :
    (call_metric_kernel f g metric kernel).2 = none
    ∧ (call_metric_kernel f g metric kernel).1
        = [KernelEffect.copyContiguous, KernelEffect.transferInput]
    ∧ KernelEffect.allocOutput ∉ (call_metric_kernel f g metric kernel).1
    ∧ KernelEffect.launchKernel ∉ (call_metric_kernel f g metric kernel).1
    ∧ KernelEffect.copyBackOutput
        ∉ (call_metric_kernel f g metric kernel).1 := by
  have htr : call_metric_kernel f g metric kernel
      = ([KernelEffect.copyContiguous, KernelEffect.transferInput], none) := by
    unfold call_metric_kernel
    rw [h]
  rw [htr]
  refine ⟨rfl, rfl, ?_, ?_, ?_⟩ <;> simp

theorem unknown_metric_dispatch_witness :
    N_MAP_PARAM "cityblock" = none
    ∧ ((call_metric_kernel [[(1 : ℚ)]] [[(2 : ℚ)]] "cityblock"
          (fun f _ => f.length)).2 = none
      ∧ (call_metric_kernel [[(1 : ℚ)]] [[(2 : ℚ)]] "cityblock"
            (fun f _ => f.length)).1
          = [KernelEffect.copyContiguous, KernelEffect.transferInput]
      ∧ KernelEffect.allocOutput
          ∉ (call_metric_kernel [[(1 : ℚ)]] [[(2 : ℚ)]] "cityblock"
              (fun f _ => f.length)).1
      ∧ KernelEffect.launchKernel
          ∉ (call_metric_kernel [[(1 : ℚ)]] [[(2 : ℚ)]] "cityblock"
              (fun f _ => f.length)).1
      ∧ KernelEffect.copyBackOutput
          ∉ (call_metric_kernel [[(1 : ℚ)]] [[(2 : ℚ)]] "cityblock"
              (fun f _ => f.length)).1) :=
  ⟨rfl, unknown_metric_dispatch "cityblock" rfl [[(1 : ℚ)]] [[(2 : ℚ)]]
    (fun f _ => f.length)⟩

/-- C9: for the grid produced by `call_metric_kernel` (dimensions rounded
up to 32×32 block multiples), every device thread whose `(i1, i2)` falls
outside the output bounds exits without writing, every in-bounds thread
writes only its own slot `(i1, i2)`, and every output element is covered
by the grid and written by exactly one thread — for both metric
kernels. -/
theorem kernel_grid_safety_spec (x y : List (List ℚ)) :
    (∀ t : ℕ × ℕ, inGrid x.length y.length t →
      x.length ≤ t.1 ∨ y.length ≤ t.2 →
      correlation_map_kernel x y t = none
        ∧ euclidean_map_kernel x y t = none)
    ∧ (∀ (t s : ℕ × ℕ) (v : CorrStats),
        correlation_map_kernel x y t = some (s, v) →
        s = t ∧ t.1 < x.length ∧ t.2 < y.length)
    ∧ (∀ (t s : ℕ × ℕ) (v : ℚ),
        euclidean_map_kernel x y t = some (s, v) →
        s = t ∧ t.1 < x.length ∧ t.2 < y.length)
    ∧ (∀ i j : ℕ, i < x.length → j < y.length →
        inGrid x.length y.length (i, j)
        ∧ correlation_map_kernel x y (i, j)
            = some ((i, j), _correlation (x.getD i []) (y.getD j []))
        ∧ euclidean_map_kernel x y (i, j)
            = some ((i, j), _euclidean_distance (x.getD i []) (y.getD j []))
        ∧ (∀ (t : ℕ × ℕ) (v : CorrStats),
            correlation_map_kernel x y t = some ((i, j), v) → t = (i, j))
        ∧ (∀ (t : ℕ × ℕ) (v : ℚ),
            euclidean_map_kernel x y t = some ((i, j), v) → t = (i, j))) := by
  have hsome : ∀ (t s : ℕ × ℕ) (v : CorrStats),
      correlation_map_kernel x y t = some (s, v) →
      s = t ∧ t.1 < x.length ∧ t.2 < y.length := by
    intro t s v hw
    unfold correlation_map_kernel at hw
    by_cases hg : x.length ≤ t.1 ∨ y.length ≤ t.2
    · rw [if_pos hg] at hw
      exact absurd hw (Option.noConfusion)
    · rw [if_neg hg] at hw
      push_neg at hg
      exact ⟨((Prod.mk.injEq _ _ _ _).mp (Option.some.inj hw)).1.symm,
        hg.1, hg.2⟩
  have hsome' : ∀ (t s : ℕ × ℕ) (v : ℚ),
      euclidean_map_kernel x y t = some (s, v) →
      s = t ∧ t.1 < x.length ∧ t.2 < y.length := by
    intro t s v hw
    unfold euclidean_map_kernel at hw
    by_cases hg : x.length ≤ t.1 ∨ y.length ≤ t.2
    · rw [if_pos hg] at hw
      exact absurd hw (Option.noConfusion)
    · rw [if_neg hg] at hw
      push_neg at hg
      exact ⟨((Prod.mk.injEq _ _ _ _).mp (Option.some.inj hw)).1.symm,
        hg.1, hg.2⟩
  refine ⟨?_, hsome, hsome', ?_⟩
  · intro t _ hout
    constructor
    · unfold correlation_map_kernel
      rw [if_pos hout]
    · unfold euclidean_map_kernel
      rw [if_pos hout]
  · intro i j hi hj
    have hg : ¬ (x.length ≤ i ∨ y.length ≤ j) := by
      push_neg
      exact ⟨hi, hj⟩
    refine ⟨?_, ?_, ?_, ?_, ?_⟩
    · unfold inGrid blocks_per_grid
      constructor <;> simp only [] <;> omega
    · unfold correlation_map_kernel
      rw [if_neg hg]
    · unfold euclidean_map_kernel
      rw [if_neg hg]
    · intro t v hw
      exact ((hsome t (i, j) v hw).1).symm
    · intro t v hw
      exact ((hsome' t (i, j) v hw).1).symm

theorem kernel_grid_safety_spec_witness :
    (0 < ([[(1 : ℚ)], [(2 : ℚ)]] : List (List ℚ)).length)
    ∧ (0 < ([[(3 : ℚ)]] : List (List ℚ)).length)
    ∧ inGrid ([[(1 : ℚ)], [(2 : ℚ)]] : List (List ℚ)).length
        ([[(3 : ℚ)]] : List (List ℚ)).length (0, 0)
    ∧ correlation_map_kernel [[(1 : ℚ)], [(2 : ℚ)]] [[(3 : ℚ)]] (0, 0)
        = some ((0, 0),
            _correlation (([[(1 : ℚ)], [(2 : ℚ)]] : List (List ℚ)).getD 0 [])
              (([[(3 : ℚ)]] : List (List ℚ)).getD 0 []))
    ∧ euclidean_map_kernel [[(1 : ℚ)], [(2 : ℚ)]] [[(3 : ℚ)]] (0, 0)
        = some ((0, 0),
            _euclidean_distance
              (([[(1 : ℚ)], [(2 : ℚ)]] : List (List ℚ)).getD 0 [])
              (([[(3 : ℚ)]] : List (List ℚ)).getD 0 [])) := by
  have h := (kernel_grid_safety_spec [[(1 : ℚ)], [(2 : ℚ)]] [[(3 : ℚ)]]).2.2.2
    0 0 (by norm_num) (by norm_num)
  exact ⟨by norm_num, by norm_num, h.1, h.2.1, h.2.2.1⟩

/-- Sanity check from the spec's missing-value example: for
`x = [5, -1, 3]` and `y = [4, 2, 1]` only indices 0 and 2 contribute, so
the Euclidean map output is `(5-4)² + (3-1)² = 5`. -/
lemma euclidean_missing_value_example :
    euclidean_map_cpu [5, -1, 3] [4, 2, 1] = 5 := by
  norm_num [euclidean_map_cpu, validPair, List.zip]
